import Mathlib

/-!
Shallow embedding of the chunking core of `rag_prep` (src/rag_prep/chunkers.py,
src/rag_prep/tokenizers.py, src/rag_prep/models.py) and proofs about it.

Conventions of the embedding:
* Python `str` values that are chunked become `List Char`; slicing
  `text[a:b]` (with `0 <= a <= b`) becomes `pySlice`.
* A Python metadata `dict` becomes an association list with first-match
  lookup; `d[k] = v` after `d = base.copy()` is modelled by consing the new
  binding in front, which is observationally equal for lookups.
* Metadata values are the scalars the chunkers store: naturals and strings.
* The `while` loops of the character and token chunkers are modelled with a
  fuel parameter; fuel `text.length` is shown to be exhaustive whenever
  `overlap < size` (the precondition the code assumes; with `overlap >= size`
  the Python loop does not make progress, and the natural-number subtraction
  `start + size - overlap` agrees with the Python `end - overlap` exactly
  when `overlap <= start + size`, which holds under that precondition).
-/

/-- A Python scalar metadata value as used by the chunkers. -/
inductive Value where
  | vNat : Nat → Value
  | vStr : String → Value
  deriving DecidableEq, Repr

/-- A Python `dict` used as metadata: association list, first match wins. -/
abbrev Dict := List (String × Value)

/-- `d.get(k)` / `d[k]` lookup. -/
def dictGet (d : Dict) (k : String) : Option Value :=
  match d with
  | [] => none
  | (k', v) :: rest => if k' = k then some v else dictGet rest k

/-- `d.get(k, default)`. -/
def dictGetD (d : Dict) (k : String) (default : Value) : Value :=
  (dictGet d k).getD default

/-- Python f-string rendering of a metadata value. -/
def fStr (v : Value) : String :=
  match v with
  | .vNat n => toString n
  | .vStr s => s

/-- Python slice `l[start:stop]` for `0 <= start, stop`. -/
def pySlice {α : Type} (l : List α) (start stop : Nat) : List α :=
  (l.drop start).take (stop - start)

/-- `rag_prep.models.Chunk`: text content, metadata, identifier. -/
structure Chunk where
  text : List Char
  metadata : Dict
  chunk_id : Value
  deriving DecidableEq, Repr

/-- `rag_prep.chunkers.CharacterChunker`: configuration fields. -/
structure CharacterChunker where
  size : Nat := 1000
  overlap : Nat := 200
  deriving DecidableEq, Repr

/-- The chunk the character chunker emits for cursor `start` and index
`chunk_idx`: text `text[start:start+size]`, metadata = copy of the base
with `chunk_index`, `start_char`, `end_char` set, and the f-string id. -/
def CharacterChunker.mkChunkAt (self : CharacterChunker) (text : List Char)
    (metadata : Dict) (start chunk_idx : Nat) : Chunk :=
  { text := pySlice text start (start + self.size)
    metadata :=
      ("end_char", .vNat (min (start + self.size) text.length)) ::
      ("start_char", .vNat start) ::
      ("chunk_index", .vNat chunk_idx) :: metadata
    chunk_id :=
      .vStr (fStr (dictGetD metadata "source_id" (.vStr "doc")) ++
        "_chunk_" ++ toString chunk_idx) }

/-- The `while start < len(text)` loop of `CharacterChunker.chunk`, with
fuel.  Each iteration emits the chunk at `start`, advances the cursor to
`end - overlap` and breaks when the new cursor is `>= len(text)`. -/
def CharacterChunker.chunkAux (self : CharacterChunker) (text : List Char)
    (metadata : Dict) : Nat → Nat → Nat → List Chunk
  | 0, _, _ => []
  | fuel + 1, start, chunk_idx =>
    if start < text.length then
      self.mkChunkAt text metadata start chunk_idx ::
        (if start + self.size - self.overlap < text.length then
          self.chunkAux text metadata fuel
            (start + self.size - self.overlap) (chunk_idx + 1)
        else [])
    else []

/-- `CharacterChunker.chunk(text, metadata)` (the emitted sequence as a
list).  Empty text yields no chunks; otherwise the loop runs from cursor 0
and index 0, with fuel `text.length` (exhaustive when `overlap < size`). -/
def CharacterChunker.chunk (self : CharacterChunker) (text : List Char)
    (metadata : Dict) : List Chunk :=
  if text.length = 0 then []
  else self.chunkAux text metadata text.length 0 0

/-- Number of chunks the character chunker emits: the number of cursor
values `i * (size - overlap) < len(text)`. -/
def CharacterChunker.numChunks (self : CharacterChunker) (len : Nat) : Nat :=
  if len = 0 then 0 else (len - 1) / (self.size - self.overlap) + 1

/-- `rag_prep.tokenizers.Tokenizer` protocol: encode/decode pair. -/
structure Tokenizer where
  encode : List Char → List Nat
  decode : List Nat → List Char

/-- The two exception kinds `get_tokenizer` can raise. -/
inductive TokError where
  | importError (msg : String)
  | valueError (msg : String)
  deriving DecidableEq

/-- The external `tiktoken` backend as seen by `get_tokenizer`: whether
importing it succeeds, and what `tiktoken.get_encoding(name)` returns (a
wrapped encoding, or the message of the exception it raises). -/
structure TiktokenEnv where
  available : Bool
  getEncoding : String → Except String Tokenizer

/-- `rag_prep.tokenizers.get_tokenizer`: `None` name gives no tokenizer; a
missing backend raises `ImportError`; a failing `get_encoding` raises
`ValueError` with the wrapped cause. -/
def get_tokenizer (env : TiktokenEnv) (name : Option String) :
    Except TokError (Option Tokenizer) :=
  match name with
  | none => .ok none
  | some n =>
    if env.available then
      match env.getEncoding n with
      | .ok enc => .ok (some enc)
      | .error e =>
        .error (.valueError ("Failed to load tokenizer '" ++ n ++ "': " ++ e))
    else
      .error (.importError
        "tiktoken is required for tokenization. Install with: pip install tiktoken")

/-- `rag_prep.chunkers.TokenChunker`: configuration after `__init__`. -/
structure TokenChunker where
  size : Nat := 1000
  overlap : Nat := 200
  tokenizer : Option Tokenizer

/-- `TokenChunker.__init__`: keep an explicit tokenizer; otherwise load by
name, falling back to `None` when `get_tokenizer` raises (`ImportError` and
`ValueError` are the only exceptions it raises, both caught). -/
def TokenChunker.init (size overlap : Nat) (tokenizer : Option Tokenizer)
    (tokenizer_name : Option String) (env : TiktokenEnv) : TokenChunker :=
  { size := size, overlap := overlap
    tokenizer :=
      match tokenizer with
      | some t => some t
      | none =>
        match get_tokenizer env tokenizer_name with
        | .ok t => t
        | .error _ => none }

/-- The chunk the token chunker emits for token-cursor `start` and index
`chunk_idx`. -/
def TokenChunker.mkChunkAt (self : TokenChunker) (t : Tokenizer)
    (tokens : List Nat) (metadata : Dict) (start chunk_idx : Nat) : Chunk :=
  { text := t.decode (pySlice tokens start (start + self.size))
    metadata :=
      ("end_token", .vNat (min (start + self.size) tokens.length)) ::
      ("start_token", .vNat start) ::
      ("chunk_index", .vNat chunk_idx) :: metadata
    chunk_id :=
      .vStr (fStr (dictGetD metadata "source_id" (.vStr "doc")) ++
        "_chunk_" ++ toString chunk_idx) }

/-- The `while start < len(tokens)` loop of `TokenChunker.chunk`, with fuel. -/
def TokenChunker.chunkAux (self : TokenChunker) (t : Tokenizer)
    (tokens : List Nat) (metadata : Dict) : Nat → Nat → Nat → List Chunk
  | 0, _, _ => []
  | fuel + 1, start, chunk_idx =>
    if start < tokens.length then
      self.mkChunkAt t tokens metadata start chunk_idx ::
        (if start + self.size - self.overlap < tokens.length then
          self.chunkAux t tokens metadata fuel
            (start + self.size - self.overlap) (chunk_idx + 1)
        else [])
    else []

/-- `TokenChunker.chunk(text, metadata)`: with no tokenizer (or empty text)
delegate to a `CharacterChunker` with the same size/overlap; otherwise run
the sliding window over the encoded tokens (zero tokens yield no chunks). -/
def TokenChunker.chunk (self : TokenChunker) (text : List Char)
    (metadata : Dict) : List Chunk :=
  match self.tokenizer with
  | none => (CharacterChunker.mk self.size self.overlap).chunk text metadata
  | some t =>
    if text.length = 0 then
      (CharacterChunker.mk self.size self.overlap).chunk text metadata
    else
      let tokens := t.encode text
      if tokens.length = 0 then []
      else self.chunkAux t tokens metadata tokens.length 0 0

/-- Python `\s` on ASCII: space, tab, newline, carriage return, vertical
tab, form feed. -/
def isPySpace (c : Char) : Bool :=
  c = ' ' || c = '\t' || c = '\n' || c = '\r' ||
  c = Char.ofNat 11 || c = Char.ofNat 12

/-- A sentence-final punctuation character, `[.!?]` in the split pattern. -/
def isSentEnd (c : Char) : Bool :=
  c = '.' || c = '!' || c = '?'

/-- Whether the previous character exists and is sentence-final punctuation
(the `(?<=[.!?])` lookbehind). -/
def prevIsSentEnd (prev : Option Char) : Bool :=
  match prev with
  | some p => isSentEnd p
  | none => false

/-- Scanner for `re.split(r"(?<=[.!?])\s+", text)` as a one-pass state
machine: a maximal whitespace run whose first character is immediately
preceded by `.`, `!` or `?` is a separator.  `prev` is the previous input
character, `inDelim` says whether the scanner is inside such a whitespace
run, and `acc` holds the current sentence reversed. -/
def sentSplitGo : Option Char → Bool → List Char → List Char → List (List Char)
  | _, _, acc, [] => [acc.reverse]
  | prev, inDelim, acc, c :: rest =>
    if inDelim then
      if isPySpace c then sentSplitGo (some c) true acc rest
      else sentSplitGo (some c) false [c] rest
    else if isPySpace c && prevIsSentEnd prev then
      acc.reverse :: sentSplitGo (some c) true [] rest
    else
      sentSplitGo (some c) false (c :: acc) rest

/-- `re.split(r"(?<=[.!?])\s+", text)`. -/
def sentSplit (text : List Char) : List (List Char) :=
  sentSplitGo none false [] text

/-- `" ".join(parts)`. -/
def joinSpace : List (List Char) → List Char
  | [] => []
  | [s] => s
  | s :: rest => s ++ ' ' :: joinSpace rest

/-- The `for s in reversed(current_chunk)` overlap-collection loop: take
sentences from the end while the cumulative length stays `<= overlap`,
stopping at the first that does not fit; `acc` is `overlap_size`. -/
def overlapPickGo (overlap : Nat) : List (List Char) → Nat → List (List Char)
  | [], _ => []
  | s :: rest, acc =>
    if acc + s.length ≤ overlap then s :: overlapPickGo overlap rest (acc + s.length)
    else []

/-- `overlap_sentences` rebuilt in original order (`insert(0, s)`). -/
def overlapPick (overlap : Nat) (current_chunk : List (List Char)) :
    List (List Char) :=
  (overlapPickGo overlap current_chunk.reverse 0).reverse

/-- `rag_prep.chunkers.SentenceChunker`: configuration fields. -/
structure SentenceChunker where
  size : Nat := 1000
  overlap : Nat := 200
  deriving DecidableEq, Repr

/-- The chunk the sentence chunker emits when flushing `current_chunk` at
index `chunk_idx`: buffered sentences joined by a single space, metadata a
copy of the base with `chunk_index` set. -/
def SentenceChunker.mkChunk (_self : SentenceChunker) (metadata : Dict)
    (current_chunk : List (List Char)) (chunk_idx : Nat) : Chunk :=
  { text := joinSpace current_chunk
    metadata := ("chunk_index", .vNat chunk_idx) :: metadata
    chunk_id :=
      .vStr (fStr (dictGetD metadata "source_id" (.vStr "doc")) ++
        "_chunk_" ++ toString chunk_idx) }

/-- The `for sentence in sentences` loop of `SentenceChunker.chunk`
(structural recursion on the remaining sentences), followed by the final
flush of a non-empty buffer.  A sentence that fits is appended to the
buffer; otherwise a non-empty buffer is flushed and the next buffer starts
with the overlap sentences plus the new sentence (an empty buffer is not
flushed, and `overlap_sentences` keeps its previous value). -/
def SentenceChunker.chunkAux (self : SentenceChunker) (metadata : Dict) :
    List (List Char) → List (List Char) → Nat → Nat → List (List Char) → List Chunk
  | [], current_chunk, _, chunk_idx, _ =>
    if current_chunk.isEmpty then []
    else [self.mkChunk metadata current_chunk chunk_idx]
  | s :: rest, current_chunk, current_size, chunk_idx, overlap_sentences =>
    if current_size + s.length ≤ self.size then
      self.chunkAux metadata rest (current_chunk ++ [s])
        (current_size + s.length) chunk_idx overlap_sentences
    else
      if current_chunk.isEmpty then
        self.chunkAux metadata rest (overlap_sentences ++ [s])
          (((overlap_sentences ++ [s]).map List.length).sum)
          chunk_idx overlap_sentences
      else
        let ovl := overlapPick self.overlap current_chunk
        self.mkChunk metadata current_chunk chunk_idx ::
          self.chunkAux metadata rest (ovl ++ [s])
            (((ovl ++ [s]).map List.length).sum) (chunk_idx + 1) ovl

/-- `SentenceChunker.chunk(text, metadata)`: empty text yields no chunks;
split into sentences (an empty split would fall back to character
chunking); then run the accumulation loop from an empty buffer. -/
def SentenceChunker.chunk (self : SentenceChunker) (text : List Char)
    (metadata : Dict) : List Chunk :=
  if text.length = 0 then []
  else
    let sentences := sentSplit text
    if sentences.isEmpty then
      (CharacterChunker.mk self.size self.overlap).chunk text metadata
    else
      self.chunkAux metadata sentences [] 0 0 []

/-- `rag_prep.chunkers.NoChunker` (no configuration). -/
structure NoChunker

/-- `NoChunker.chunk(text, metadata)`: one chunk with the whole text, a copy
of the base metadata, and `metadata.get("source_id", "doc")` as its id. -/
def NoChunker.chunk (_self : NoChunker) (text : List Char) (metadata : Dict) :
    List Chunk :=
  [{ text := text
     metadata := metadata
     chunk_id := dictGetD metadata "source_id" (.vStr "doc") }]

/-- The closed set of built-in strategies `get_chunker` can return. -/
inductive ChunkerI where
  | character (c : CharacterChunker)
  | token (c : TokenChunker)
  | sentence (c : SentenceChunker)
  | nochunk (c : NoChunker)

/-- Strategy dispatch: the shared `chunk(text, metadata)` contract. -/
def ChunkerI.chunk : ChunkerI → List Char → Dict → List Chunk
  | .character c => c.chunk
  | .token c => c.chunk
  | .sentence c => c.chunk
  | .nochunk c => c.chunk

/-- `strategy.lower()`, character by character (the built-in strategy names
are ASCII, where Python's `str.lower` and `Char.toLower` agree). -/
def pyLower (s : String) : String :=
  ⟨s.data.map Char.toLower⟩

/-- The `ValueError` message `get_chunker` raises on a failed resolution
(the f-string at the end of `get_chunker`). -/
def unknownStrategyMsg (strategy e : String) : String :=
  "Unknown chunking strategy '" ++ strategy ++
    "'. Supported: 'character', 'token', 'sentence', 'none', or a module path like 'mypackage.CustomChunker'. Error: " ++ e

/-- `rag_prep.chunkers.get_chunker`: case-insensitive match of the four
built-in names, else dynamic resolution of a module path.  The dynamic part
(`importlib` plus the two construction attempts) is the parameter `ext`:
it returns the constructed custom chunker or the message of whatever
exception escaped the `try` block, which `get_chunker` wraps in a single
`ValueError`. -/
def get_chunker {α : Type} (env : TiktokenEnv) (ext : String → Except String α)
    (strategy : String) (size overlap : Nat) (tokenizer : Option Tokenizer)
    (tokenizer_name : Option String) : Except String (ChunkerI ⊕ α) :=
  let strategy_lower := pyLower strategy
  if strategy_lower = "character" then
    .ok (.inl (.character (CharacterChunker.mk size overlap)))
  else if strategy_lower = "token" then
    .ok (.inl (.token (TokenChunker.init size overlap tokenizer tokenizer_name env)))
  else if strategy_lower = "sentence" then
    .ok (.inl (.sentence (SentenceChunker.mk size overlap)))
  else if strategy_lower = "none" then
    .ok (.inl (.nochunk ⟨⟩))
  else
    match ext strategy with
    | .ok c => .ok (.inr c)
    | .error e => .error (unknownStrategyMsg strategy e)

/-- The `chunk_index` metadata values carried by a chunk sequence, in
emission order. -/
def chunkIndexVals (cs : List Chunk) : List Nat :=
  cs.filterMap (fun c =>
    match dictGet c.metadata "chunk_index" with
    | some (.vNat n) => some n
    | _ => none)

/-- Concatenation of the texts of the chunks after the first, each with its
first `overlap` characters dropped. -/
def reconcatTail (overlap : Nat) : List Chunk → List Char
  | [] => []
  | c :: rest => c.text.drop overlap ++ reconcatTail overlap rest

/-- Chunk 0's text followed by each later chunk's text with its first
`overlap` characters dropped: the reconstruction of §8's coverage property. -/
def reconcat (overlap : Nat) : List Chunk → List Char
  | [] => []
  | c :: rest => c.text ++ reconcatTail overlap rest

/-! ### Heap-instrumented chunkers

Python dicts are mutable heap objects; `metadata.copy()` allocates a fresh
one per chunk.  To state metadata isolation (mutating one chunk's dict
cannot affect a sibling's or the base's) we instrument the chunkers with an
explicit store of dicts: references are indices into the store, the base
metadata lives at `baseRef`, and each `copy()` appends a fresh dict.  The
chunk bodies are the same as the pure versions above. -/

/-- Dereference a dict in the store. -/
def heapGet (store : List Dict) (r : Nat) : Dict := store.getD r []

/-- Mutate the dict at reference `r` (the effect of writing through one
chunk's metadata reference). -/
def heapSet (store : List Dict) (r : Nat) (d : Dict) : List Dict :=
  store.set r d

/-- A chunk whose metadata is a reference into the store. -/
structure HChunk where
  text : List Char
  metaRef : Nat
  chunk_id : Value
  deriving DecidableEq, Repr

/-- The fresh dict the character chunker's `metadata.copy()` plus updates
produce for cursor `start`, built from the base dict at `baseRef`. -/
def CharacterChunker.hMeta (self : CharacterChunker) (text : List Char)
    (store : List Dict) (baseRef start chunk_idx : Nat) : Dict :=
  ("end_char", Value.vNat (min (start + self.size) text.length)) ::
  ("start_char", Value.vNat start) ::
  ("chunk_index", Value.vNat chunk_idx) :: heapGet store baseRef

/-- The heap chunk emitted at cursor `start`: its metadata reference is the
fresh address `store.length`. -/
def CharacterChunker.mkHChunkAt (self : CharacterChunker) (text : List Char)
    (store : List Dict) (baseRef start chunk_idx : Nat) : HChunk :=
  { text := pySlice text start (start + self.size)
    metaRef := store.length
    chunk_id := .vStr (fStr (dictGetD (heapGet store baseRef) "source_id"
      (.vStr "doc")) ++ "_chunk_" ++ toString chunk_idx) }

/-- Heap-instrumented `CharacterChunker.chunk` loop: `metadata.copy()`
allocates the fresh dict `store.length`. -/
def CharacterChunker.chunkHAux (self : CharacterChunker) (text : List Char)
    (baseRef : Nat) : Nat → Nat → Nat → List Dict → List HChunk × List Dict
  | 0, _, _, store => ([], store)
  | fuel + 1, start, chunk_idx, store =>
    if start < text.length then
      if start + self.size - self.overlap < text.length then
        (self.mkHChunkAt text store baseRef start chunk_idx ::
          (self.chunkHAux text baseRef fuel (start + self.size - self.overlap)
            (chunk_idx + 1)
            (store ++ [self.hMeta text store baseRef start chunk_idx])).1,
         (self.chunkHAux text baseRef fuel (start + self.size - self.overlap)
            (chunk_idx + 1)
            (store ++ [self.hMeta text store baseRef start chunk_idx])).2)
      else ([self.mkHChunkAt text store baseRef start chunk_idx],
        store ++ [self.hMeta text store baseRef start chunk_idx])
    else ([], store)

/-- Heap-instrumented `CharacterChunker.chunk`. -/
def CharacterChunker.chunkH (self : CharacterChunker) (text : List Char)
    (baseRef : Nat) (store : List Dict) : List HChunk × List Dict :=
  if text.length = 0 then ([], store)
  else self.chunkHAux text baseRef text.length 0 0 store

/-- The fresh dict the token chunker allocates at token-cursor `start`. -/
def TokenChunker.hMeta (self : TokenChunker) (tokens : List Nat)
    (store : List Dict) (baseRef start chunk_idx : Nat) : Dict :=
  ("end_token", Value.vNat (min (start + self.size) tokens.length)) ::
  ("start_token", Value.vNat start) ::
  ("chunk_index", Value.vNat chunk_idx) :: heapGet store baseRef

/-- The heap chunk the token chunker emits at token-cursor `start`. -/
def TokenChunker.mkHChunkAt (self : TokenChunker) (t : Tokenizer)
    (tokens : List Nat) (store : List Dict) (baseRef start chunk_idx : Nat) :
    HChunk :=
  { text := t.decode (pySlice tokens start (start + self.size))
    metaRef := store.length
    chunk_id := .vStr (fStr (dictGetD (heapGet store baseRef) "source_id"
      (.vStr "doc")) ++ "_chunk_" ++ toString chunk_idx) }

/-- Heap-instrumented `TokenChunker.chunk` loop. -/
def TokenChunker.chunkHAux (self : TokenChunker) (t : Tokenizer)
    (tokens : List Nat) (baseRef : Nat) :
    Nat → Nat → Nat → List Dict → List HChunk × List Dict
  | 0, _, _, store => ([], store)
  | fuel + 1, start, chunk_idx, store =>
    if start < tokens.length then
      if start + self.size - self.overlap < tokens.length then
        (self.mkHChunkAt t tokens store baseRef start chunk_idx ::
          (self.chunkHAux t tokens baseRef fuel
            (start + self.size - self.overlap) (chunk_idx + 1)
            (store ++ [self.hMeta tokens store baseRef start chunk_idx])).1,
         (self.chunkHAux t tokens baseRef fuel
            (start + self.size - self.overlap) (chunk_idx + 1)
            (store ++ [self.hMeta tokens store baseRef start chunk_idx])).2)
      else ([self.mkHChunkAt t tokens store baseRef start chunk_idx],
        store ++ [self.hMeta tokens store baseRef start chunk_idx])
    else ([], store)

/-- Heap-instrumented `TokenChunker.chunk`. -/
def TokenChunker.chunkH (self : TokenChunker) (text : List Char)
    (baseRef : Nat) (store : List Dict) : List HChunk × List Dict :=
  match self.tokenizer with
  | none => (CharacterChunker.mk self.size self.overlap).chunkH text baseRef store
  | some t =>
    if text.length = 0 then
      (CharacterChunker.mk self.size self.overlap).chunkH text baseRef store
    else
      let tokens := t.encode text
      if tokens.length = 0 then ([], store)
      else self.chunkHAux t tokens baseRef tokens.length 0 0 store

/-- The fresh dict a sentence-chunker flush allocates. -/
def SentenceChunker.hMeta (store : List Dict) (baseRef chunk_idx : Nat) : Dict :=
  ("chunk_index", Value.vNat chunk_idx) :: heapGet store baseRef

/-- The heap chunk a sentence-chunker flush emits. -/
def SentenceChunker.mkHChunk (_self : SentenceChunker) (store : List Dict)
    (baseRef : Nat) (current_chunk : List (List Char)) (chunk_idx : Nat) :
    HChunk :=
  { text := joinSpace current_chunk
    metaRef := store.length
    chunk_id := .vStr (fStr (dictGetD (heapGet store baseRef) "source_id"
      (.vStr "doc")) ++ "_chunk_" ++ toString chunk_idx) }

/-- Heap-instrumented `SentenceChunker.chunk` loop: each flush copies the
base dict into the fresh dict `store.length`. -/
def SentenceChunker.chunkHAux (self : SentenceChunker) (baseRef : Nat) :
    List (List Char) → List (List Char) → Nat → Nat → List (List Char) →
    List Dict → List HChunk × List Dict
  | [], current_chunk, _, chunk_idx, _, store =>
    if current_chunk.isEmpty then ([], store)
    else
      ([self.mkHChunk store baseRef current_chunk chunk_idx],
        store ++ [SentenceChunker.hMeta store baseRef chunk_idx])
  | s :: rest, current_chunk, current_size, chunk_idx, overlap_sentences, store =>
    if current_size + s.length ≤ self.size then
      self.chunkHAux baseRef rest (current_chunk ++ [s])
        (current_size + s.length) chunk_idx overlap_sentences store
    else
      if current_chunk.isEmpty then
        self.chunkHAux baseRef rest (overlap_sentences ++ [s])
          (((overlap_sentences ++ [s]).map List.length).sum)
          chunk_idx overlap_sentences store
      else
        (self.mkHChunk store baseRef current_chunk chunk_idx ::
          (self.chunkHAux baseRef rest (overlapPick self.overlap current_chunk ++ [s])
            (((overlapPick self.overlap current_chunk ++ [s]).map List.length).sum)
            (chunk_idx + 1) (overlapPick self.overlap current_chunk)
            (store ++ [SentenceChunker.hMeta store baseRef chunk_idx])).1,
         (self.chunkHAux baseRef rest (overlapPick self.overlap current_chunk ++ [s])
            (((overlapPick self.overlap current_chunk ++ [s]).map List.length).sum)
            (chunk_idx + 1) (overlapPick self.overlap current_chunk)
            (store ++ [SentenceChunker.hMeta store baseRef chunk_idx])).2)

/-- Heap-instrumented `SentenceChunker.chunk`. -/
def SentenceChunker.chunkH (self : SentenceChunker) (text : List Char)
    (baseRef : Nat) (store : List Dict) : List HChunk × List Dict :=
  if text.length = 0 then ([], store)
  else
    let sentences := sentSplit text
    if sentences.isEmpty then
      (CharacterChunker.mk self.size self.overlap).chunkH text baseRef store
    else
      self.chunkHAux baseRef sentences [] 0 0 [] store

/-- Heap-instrumented `NoChunker.chunk`: one `copy()` of the base dict. -/
def NoChunker.chunkH (_self : NoChunker) (text : List Char)
    (baseRef : Nat) (store : List Dict) : List HChunk × List Dict :=
  ([{ text := text
      metaRef := store.length
      chunk_id := dictGetD (heapGet store baseRef) "source_id" (.vStr "doc") }],
    store ++ [heapGet store baseRef])

/-- Heap-instrumented strategy dispatch. -/
def ChunkerI.chunkH : ChunkerI → List Char → Nat → List Dict → List HChunk × List Dict
  | .character c => c.chunkH
  | .token c => c.chunkH
  | .sentence c => c.chunkH
  | .nochunk c => c.chunkH

theorem range_succ_map_eq {α : Type} (f : Nat → α) (n : Nat) :
    (List.range (n + 1)).map f = f 0 :: (List.range n).map (fun j => f (j + 1)) := by
  rw [List.range_succ_eq_map, List.map_cons, List.map_map]
  simp [Function.comp_def]

theorem CharacterChunker.chunkAux_closed (self : CharacterChunker)
    (text : List Char) (metadata : Dict) (h : self.overlap < self.size) :
    ∀ (fuel start chunk_idx : Nat),
      text.length ≤ start + fuel * (self.size - self.overlap) →
      self.chunkAux text metadata fuel start chunk_idx =
        (List.range (if text.length ≤ start then 0
            else (text.length - start - 1) / (self.size - self.overlap) + 1)).map
          (fun j => self.mkChunkAt text metadata
            (start + j * (self.size - self.overlap)) (chunk_idx + j)) := by
  have hstep : 0 < self.size - self.overlap := Nat.sub_pos_of_lt h
  intro fuel
  induction fuel with
  | zero =>
    intro start chunk_idx hfuel
    rw [Nat.zero_mul, Nat.add_zero] at hfuel
    simp [CharacterChunker.chunkAux, hfuel]
  | succ fuel ih =>
    intro start chunk_idx hfuel
    have hmul : (fuel + 1) * (self.size - self.overlap)
        = fuel * (self.size - self.overlap) + (self.size - self.overlap) := by
      ring
    rw [hmul] at hfuel
    by_cases hlt : start < text.length
    · have hns : ¬ text.length ≤ start := by omega
      rw [CharacterChunker.chunkAux, if_pos hlt, if_neg hns]
      by_cases hbreak : start + self.size - self.overlap < text.length
      · rw [if_pos hbreak]
        rw [ih (start + self.size - self.overlap) (chunk_idx + 1) (by omega)]
        have hns' : ¬ text.length ≤ start + self.size - self.overlap := by omega
        rw [if_neg hns']
        -- relate the two chunk counts
        have hcount : (text.length - start - 1) / (self.size - self.overlap) + 1
            = ((text.length - (start + self.size - self.overlap) - 1) /
                (self.size - self.overlap) + 1) + 1 := by
          have hdecomp : text.length - start - 1
              = (text.length - (start + self.size - self.overlap) - 1)
                + (self.size - self.overlap) := by omega
          rw [hdecomp, Nat.add_div_right _ hstep]
        rw [hcount]
        conv_rhs => rw [range_succ_map_eq]
        congr 1
        · simp [CharacterChunker.mkChunkAt]
        · apply List.map_congr_left
          intro j _
          have hj : (j + 1) * (self.size - self.overlap)
              = j * (self.size - self.overlap) + (self.size - self.overlap) := by
            ring
          have e1 : start + self.size - self.overlap
                + j * (self.size - self.overlap)
              = start + (j + 1) * (self.size - self.overlap) := by
            omega
          have e2 : chunk_idx + 1 + j = chunk_idx + (j + 1) := by omega
          rw [e1, e2]
      · rw [if_neg hbreak]
        have hone : (text.length - start - 1) / (self.size - self.overlap) + 1 = 1 := by
          have hlt' : text.length - start - 1 < self.size - self.overlap := by omega
          rw [Nat.div_eq_of_lt hlt']
        rw [hone]
        have hr1 : List.range 1 = [0] := rfl
        rw [hr1, List.map_cons, List.map_nil]
        simp [CharacterChunker.mkChunkAt]
    · rw [CharacterChunker.chunkAux, if_neg hlt, if_pos (by omega),
        List.range_zero, List.map_nil]

theorem CharacterChunker.chunk_closed (self : CharacterChunker)
    (text : List Char) (metadata : Dict) (h : self.overlap < self.size) :
    self.chunk text metadata =
      (List.range (self.numChunks text.length)).map
        (fun j => self.mkChunkAt text metadata
          (j * (self.size - self.overlap)) j) := by
  have hstep : 0 < self.size - self.overlap := Nat.sub_pos_of_lt h
  unfold CharacterChunker.chunk CharacterChunker.numChunks
  by_cases hz : text.length = 0
  · simp [hz]
  · rw [if_neg hz, if_neg hz]
    rw [self.chunkAux_closed text metadata h text.length 0 0
      (by have := Nat.le_mul_of_pos_right text.length hstep; omega)]
    rw [if_neg (by omega)]
    apply List.map_congr_left
    intro j _
    simp

theorem CharacterChunker.mkChunkAt_start (self : CharacterChunker)
    (text : List Char) (metadata : Dict) (start chunk_idx : Nat) :
    dictGet (self.mkChunkAt text metadata start chunk_idx).metadata "start_char"
      = some (.vNat start) := rfl

theorem CharacterChunker.mkChunkAt_end (self : CharacterChunker)
    (text : List Char) (metadata : Dict) (start chunk_idx : Nat) :
    dictGet (self.mkChunkAt text metadata start chunk_idx).metadata "end_char"
      = some (.vNat (min (start + self.size) text.length)) := rfl

theorem CharacterChunker.charMkChunkAt_idx (self : CharacterChunker)
    (text : List Char) (metadata : Dict) (start chunk_idx : Nat) :
    dictGet (self.mkChunkAt text metadata start chunk_idx).metadata "chunk_index"
      = some (.vNat chunk_idx) := rfl

theorem CharacterChunker.chunk_length (self : CharacterChunker)
    (text : List Char) (metadata : Dict) (h : self.overlap < self.size) :
    (self.chunk text metadata).length = self.numChunks text.length := by
  rw [self.chunk_closed text metadata h]
  simp

theorem CharacterChunker.chunk_get (self : CharacterChunker)
    (text : List Char) (metadata : Dict) (h : self.overlap < self.size)
    (i : Nat) (hi : i < (self.chunk text metadata).length) :
    (self.chunk text metadata).get ⟨i, hi⟩
      = self.mkChunkAt text metadata (i * (self.size - self.overlap)) i := by
  revert hi
  rw [self.chunk_closed text metadata h]
  intro hi
  simp [List.get_eq_getElem, List.getElem_map, List.getElem_range]

theorem reconcatTail_append (ovl : Nat) (l1 l2 : List Chunk) :
    reconcatTail ovl (l1 ++ l2) = reconcatTail ovl l1 ++ reconcatTail ovl l2 := by
  induction l1 with
  | nil => simp [reconcatTail]
  | cons c rest ih => simp [reconcatTail, ih]

theorem reconcat_cons_append (ovl : Nat) (c : Chunk) (l1 l2 : List Chunk) :
    reconcat ovl ((c :: l1) ++ l2) = reconcat ovl (c :: l1) ++ reconcatTail ovl l2 := by
  simp [reconcat, reconcatTail_append]

theorem CharacterChunker.reconcat_partial (self : CharacterChunker)
    (text : List Char) (metadata : Dict) (h : self.overlap < self.size) :
    ∀ n : Nat, 1 ≤ n → n ≤ self.numChunks text.length →
    reconcat self.overlap ((List.range n).map
        (fun j => self.mkChunkAt text metadata (j * (self.size - self.overlap)) j))
      = text.take ((n - 1) * (self.size - self.overlap) + self.size) := by
  have hstep : 0 < self.size - self.overlap := Nat.sub_pos_of_lt h
  intro n
  induction n with
  | zero => intro h1; omega
  | succ n ih =>
    intro _ hle
    by_cases hn : n = 0
    · subst hn
      rw [(by rfl : List.range 1 = [0])]
      simp [reconcat, reconcatTail, CharacterChunker.mkChunkAt, pySlice]
    · have hn1 : 1 ≤ n := by omega
      have hle' : n ≤ self.numChunks text.length := by omega
      obtain ⟨m, rfl⟩ : ∃ m, n = m + 1 := ⟨n - 1, by omega⟩
      rw [List.range_succ, List.map_append]
      have hcons : ∃ c l, (List.range (m + 1)).map
          (fun j => self.mkChunkAt text metadata (j * (self.size - self.overlap)) j)
          = c :: l := by
        cases hmap : (List.range (m + 1)).map
            (fun j => self.mkChunkAt text metadata (j * (self.size - self.overlap)) j) with
        | nil =>
          have := congrArg List.length hmap
          simp at this
        | cons c l => exact ⟨c, l, rfl⟩
      obtain ⟨c, l, hcl⟩ := hcons
      rw [hcl, reconcat_cons_append, ← hcl, ih hn1 hle']
      -- the dropped-overlap text of chunk m+1
      have hmap1 : List.map
          (fun j => self.mkChunkAt text metadata (j * (self.size - self.overlap)) j)
          [m + 1] = [self.mkChunkAt text metadata
            ((m + 1) * (self.size - self.overlap)) (m + 1)] := by
        simp
      rw [hmap1]
      have htail : reconcatTail self.overlap
          [self.mkChunkAt text metadata ((m + 1) * (self.size - self.overlap)) (m + 1)]
          = (text.drop (m * (self.size - self.overlap) + self.size)).take
              (self.size - self.overlap) := by
        simp only [reconcatTail, List.append_nil, CharacterChunker.mkChunkAt, pySlice]
        rw [Nat.add_sub_cancel_left]
        rw [List.drop_take self.size self.overlap]
        rw [List.drop_drop]
        have e1 : (m + 1) * (self.size - self.overlap) + self.overlap
            = m * (self.size - self.overlap) + self.size := by
          have : (m + 1) * (self.size - self.overlap)
              = m * (self.size - self.overlap) + (self.size - self.overlap) := by ring
          omega
        rw [e1]
      rw [htail]
      simp only [Nat.add_sub_cancel]
      rw [← List.take_add]
      congr 1
      have hmm : (m + 1) * (self.size - self.overlap)
          = m * (self.size - self.overlap) + (self.size - self.overlap) := by ring
      omega

/-- C1: for non-empty text and `size > overlap >= 0`, the character chunker
covers the text left to right with no gaps: chunk `i`'s text is
`text[i*(size-overlap) : i*(size-overlap)+size]`; every character position
lies in some chunk's `[start_char, end_char)`; and chunk 0's text followed
by each later chunk's text with its first `overlap` characters dropped
reconstructs the text exactly. -/
theorem claim_C1 (self : CharacterChunker) (text : List Char) (metadata : Dict)
    (hne : text ≠ []) (hov : self.overlap < self.size) :
    (∀ i (hi : i < (self.chunk text metadata).length),
      ((self.chunk text metadata).get ⟨i, hi⟩).text
        = pySlice text (i * (self.size - self.overlap))
            (i * (self.size - self.overlap) + self.size))
    ∧ (∀ k, k < text.length →
        ∃ j, ∃ hj : j < (self.chunk text metadata).length, ∃ s e : Nat,
          dictGet ((self.chunk text metadata).get ⟨j, hj⟩).metadata "start_char"
            = some (.vNat s)
          ∧ dictGet ((self.chunk text metadata).get ⟨j, hj⟩).metadata "end_char"
            = some (.vNat e)
          ∧ s ≤ k ∧ k < e)
    ∧ reconcat self.overlap (self.chunk text metadata) = text := by
  have hstep : 0 < self.size - self.overlap := Nat.sub_pos_of_lt hov
  have hlen : text.length ≠ 0 := fun h0 => hne (List.length_eq_zero.mp h0)
  have hnum : self.numChunks text.length
      = (text.length - 1) / (self.size - self.overlap) + 1 := by
    rw [CharacterChunker.numChunks, if_neg hlen]
  have hlength : (self.chunk text metadata).length = self.numChunks text.length :=
    self.chunk_length text metadata hov
  refine ⟨?_, ?_, ?_⟩
  · intro i hi
    rw [self.chunk_get text metadata hov i hi]
    rfl
  · intro k hk
    by_cases hq : k / (self.size - self.overlap)
        < (text.length - 1) / (self.size - self.overlap) + 1
    · have hj : k / (self.size - self.overlap) < (self.chunk text metadata).length := by
        rw [hlength, hnum]; exact hq
      refine ⟨k / (self.size - self.overlap), hj,
        k / (self.size - self.overlap) * (self.size - self.overlap),
        min (k / (self.size - self.overlap) * (self.size - self.overlap) + self.size)
          text.length, ?_, ?_, ?_, ?_⟩
      · rw [self.chunk_get text metadata hov _ hj]
        exact self.mkChunkAt_start text metadata _ _
      · rw [self.chunk_get text metadata hov _ hj]
        exact self.mkChunkAt_end text metadata _ _
      · exact Nat.div_mul_le_self k (self.size - self.overlap)
      · have hmod := Nat.div_add_mod k (self.size - self.overlap)
        have hmlt : k % (self.size - self.overlap) < self.size - self.overlap :=
          Nat.mod_lt _ hstep
        have hcomm : (self.size - self.overlap) * (k / (self.size - self.overlap))
            = k / (self.size - self.overlap) * (self.size - self.overlap) :=
          Nat.mul_comm _ _
        refine Nat.lt_min.mpr ⟨?_, hk⟩
        omega
    · push_neg at hq
      have hj : (text.length - 1) / (self.size - self.overlap)
          < (self.chunk text metadata).length := by
        rw [hlength, hnum]; omega
      refine ⟨(text.length - 1) / (self.size - self.overlap), hj,
        (text.length - 1) / (self.size - self.overlap) * (self.size - self.overlap),
        min ((text.length - 1) / (self.size - self.overlap) * (self.size - self.overlap)
          + self.size) text.length, ?_, ?_, ?_, ?_⟩
      · rw [self.chunk_get text metadata hov _ hj]
        exact self.mkChunkAt_start text metadata _ _
      · rw [self.chunk_get text metadata hov _ hj]
        exact self.mkChunkAt_end text metadata _ _
      · have h1 : ((text.length - 1) / (self.size - self.overlap) + 1)
              * (self.size - self.overlap)
            ≤ k / (self.size - self.overlap) * (self.size - self.overlap) :=
          Nat.mul_le_mul_right _ hq
        have h2 : k / (self.size - self.overlap) * (self.size - self.overlap) ≤ k :=
          Nat.div_mul_le_self k _
        have h3 : ((text.length - 1) / (self.size - self.overlap) + 1)
              * (self.size - self.overlap)
            = (text.length - 1) / (self.size - self.overlap) * (self.size - self.overlap)
              + (self.size - self.overlap) := by ring
        omega
      · have hdm := Nat.div_add_mod (text.length - 1) (self.size - self.overlap)
        have hmlt : (text.length - 1) % (self.size - self.overlap)
            < self.size - self.overlap := Nat.mod_lt _ hstep
        have hcomm : (self.size - self.overlap)
              * ((text.length - 1) / (self.size - self.overlap))
            = (text.length - 1) / (self.size - self.overlap) * (self.size - self.overlap) :=
          Nat.mul_comm _ _
        refine Nat.lt_min.mpr ⟨?_, hk⟩
        omega
  · have h1 : 1 ≤ self.numChunks text.length := by
      rw [hnum]; exact Nat.le_add_left 1 _
    rw [self.chunk_closed text metadata hov,
      self.reconcat_partial text metadata hov (self.numChunks text.length) h1 le_rfl]
    apply List.take_of_length_le
    rw [hnum]
    have hdm := Nat.div_add_mod (text.length - 1) (self.size - self.overlap)
    have hmlt : (text.length - 1) % (self.size - self.overlap)
        < self.size - self.overlap := Nat.mod_lt _ hstep
    have hcomm : (self.size - self.overlap)
          * ((text.length - 1) / (self.size - self.overlap))
        = (text.length - 1) / (self.size - self.overlap) * (self.size - self.overlap) :=
      Nat.mul_comm _ _
    simp only [Nat.add_sub_cancel]
    omega

/-- Witness for C1 at a concrete input: size 3, overlap 1, text "abcdef". -/
theorem claim_C1_witness :
    ("abcdef".data ≠ [] ∧ (CharacterChunker.mk 3 1).overlap < (CharacterChunker.mk 3 1).size)
    ∧ reconcat 1 ((CharacterChunker.mk 3 1).chunk "abcdef".data []) = "abcdef".data :=
  ⟨⟨by decide, by decide⟩,
    (claim_C1 (CharacterChunker.mk 3 1) "abcdef".data [] (by decide) (by decide)).2.2⟩

/-- C2 fails as stated: "abcde" (5 characters) is shorter than size 10, and
overlap 9 satisfies `0 <= overlap < size`, yet the character chunker emits
five chunks rather than exactly one, because the cursor advances by only
`size - overlap = 1` per step. -/
theorem claim_C2_counterexample :
    ("abcde".data ≠ [] ∧ "abcde".data.length < 10 ∧ 9 < 10) ∧
    ((CharacterChunker.mk 10 9).chunk "abcde".data []).length = 5 ∧
    ((CharacterChunker.mk 10 9).chunk "abcde".data []).length ≠ 1 := by
  decide

/-- C2 (amended): a non-empty text yields exactly one chunk — equal to the
whole text — precisely when `len(text) <= size - overlap`, i.e.
`len(text) + overlap <= size`; `len(text) < size` alone is not enough. -/
theorem claim_C2 (self : CharacterChunker) (text : List Char) (metadata : Dict)
    (hne : text ≠ []) (hov : self.overlap < self.size)
    (hfit : text.length + self.overlap ≤ self.size) :
    (self.chunk text metadata).map Chunk.text = [text] := by
  have hlen : text.length ≠ 0 := fun h0 => hne (List.length_eq_zero.mp h0)
  have hnum : self.numChunks text.length = 1 := by
    rw [CharacterChunker.numChunks, if_neg hlen]
    have hz : (text.length - 1) / (self.size - self.overlap) = 0 :=
      Nat.div_eq_of_lt (by omega)
    omega
  rw [self.chunk_closed text metadata hov, hnum]
  have hr1 : List.range 1 = [0] := rfl
  rw [hr1]
  simp only [List.map_cons, List.map_nil, CharacterChunker.mkChunkAt, pySlice,
    Nat.zero_mul, List.drop_zero, Nat.sub_zero, Nat.zero_add]
  rw [List.take_of_length_le (by omega)]

/-- Witness for the amended C2: size 10, overlap 2, text "abcdefgh". -/
theorem claim_C2_witness :
    ("abcdefgh".data ≠ [] ∧ 2 < 10 ∧ "abcdefgh".data.length + 2 ≤ 10) ∧
    ((CharacterChunker.mk 10 2).chunk "abcdefgh".data []).map Chunk.text
      = ["abcdefgh".data] :=
  ⟨⟨by decide, by decide, by decide⟩,
    claim_C2 (CharacterChunker.mk 10 2) "abcdefgh".data []
      (by decide) (by decide) (by decide)⟩

/-- C5: with `overlap < size` the character-chunking loop terminates — fuel
`len(text)` is exhaustive, so any larger fuel produces the same finite chunk
list — and empty text yields zero chunks. -/
theorem claim_C5 (self : CharacterChunker) (text : List Char) (metadata : Dict)
    (hov : self.overlap < self.size) :
    (∀ extra : Nat,
      self.chunkAux text metadata (text.length + extra) 0 0
        = self.chunk text metadata)
    ∧ self.chunk [] metadata = [] := by
  have hstep : 0 < self.size - self.overlap := Nat.sub_pos_of_lt hov
  have hbase : text.length ≤ text.length * (self.size - self.overlap) :=
    Nat.le_mul_of_pos_right _ hstep
  constructor
  · intro extra
    have hmono : text.length * (self.size - self.overlap)
        ≤ (text.length + extra) * (self.size - self.overlap) :=
      Nat.mul_le_mul_right _ (Nat.le_add_right _ _)
    rw [self.chunkAux_closed text metadata hov (text.length + extra) 0 0 (by omega)]
    by_cases hz : text.length = 0
    · rw [CharacterChunker.chunk, if_pos hz, if_pos (by omega), List.range_zero,
        List.map_nil]
    · rw [CharacterChunker.chunk, if_neg hz,
        self.chunkAux_closed text metadata hov text.length 0 0 (by omega)]
  · rfl

/-- Witness for C5: size 5, overlap 2, text "abc", extra fuel 7. -/
theorem claim_C5_witness :
    (2 < 5) ∧
    (CharacterChunker.mk 5 2).chunkAux "abc".data [] ("abc".data.length + 7) 0 0
      = (CharacterChunker.mk 5 2).chunk "abc".data [] ∧
    (CharacterChunker.mk 5 2).chunk [] [] = [] :=
  ⟨by decide,
    (claim_C5 (CharacterChunker.mk 5 2) "abc".data [] (by decide)).1 7,
    (claim_C5 (CharacterChunker.mk 5 2) "abc".data [] (by decide)).2⟩

/-- C10: under `size > 0` and `0 <= overlap < size`, every chunk the
character chunker emits records character offsets that exactly locate its
text: `text[start_char:end_char]` equals the chunk text,
`start_char < end_char <= len(text)`, `end_char - start_char <= size`, and
the chunk text is non-empty with at most `size` characters. -/
theorem claim_C10 (self : CharacterChunker) (text : List Char) (metadata : Dict)
    (hsz : 0 < self.size) (hov : self.overlap < self.size) :
    ∀ c ∈ self.chunk text metadata, ∃ s e : Nat,
      dictGet c.metadata "start_char" = some (.vNat s)
      ∧ dictGet c.metadata "end_char" = some (.vNat e)
      ∧ pySlice text s e = c.text
      ∧ s < e ∧ e ≤ text.length ∧ e - s ≤ self.size
      ∧ c.text ≠ [] ∧ c.text.length ≤ self.size := by
  intro c hc
  rw [self.chunk_closed text metadata hov] at hc
  simp only [List.mem_map, List.mem_range] at hc
  obtain ⟨i, hi, rfl⟩ := hc
  have hlen : text.length ≠ 0 := by
    intro h0
    rw [CharacterChunker.numChunks, if_pos h0] at hi
    omega
  rw [CharacterChunker.numChunks, if_neg hlen] at hi
  have histart : i * (self.size - self.overlap) < text.length := by
    have h1 : i * (self.size - self.overlap)
        ≤ (text.length - 1) / (self.size - self.overlap) * (self.size - self.overlap) :=
      Nat.mul_le_mul_right _ (by omega)
    have h2 : (text.length - 1) / (self.size - self.overlap) * (self.size - self.overlap)
        ≤ text.length - 1 := Nat.div_mul_le_self _ _
    omega
  refine ⟨i * (self.size - self.overlap),
    min (i * (self.size - self.overlap) + self.size) text.length,
    self.mkChunkAt_start text metadata _ _,
    self.mkChunkAt_end text metadata _ _, ?_, ?_, ?_, ?_, ?_, ?_⟩
  · show pySlice text _ _ = pySlice text _ _
    unfold pySlice
    apply List.take_eq_take.mpr
    rw [List.length_drop]
    omega
  · exact Nat.lt_min.mpr ⟨by omega, histart⟩
  · exact Nat.min_le_right _ _
  · have := Nat.min_le_left (i * (self.size - self.overlap) + self.size) text.length
    omega
  · show pySlice text _ _ ≠ []
    apply List.ne_nil_of_length_pos
    unfold pySlice
    rw [List.length_take, List.length_drop]
    omega
  · show (pySlice text _ _).length ≤ self.size
    unfold pySlice
    rw [List.length_take, List.length_drop]
    omega

/-- Witness for C10: size 3, overlap 1, text "abcde", second chunk. -/
theorem claim_C10_witness :
    ((0 : Nat) < 3 ∧ 1 < 3) ∧
    (∃ s e : Nat,
      dictGet [("end_char", Value.vNat 5), ("start_char", Value.vNat 2),
          ("chunk_index", Value.vNat 1)] "start_char" = some (.vNat s)
      ∧ dictGet [("end_char", Value.vNat 5), ("start_char", Value.vNat 2),
          ("chunk_index", Value.vNat 1)] "end_char" = some (.vNat e)
      ∧ pySlice "abcde".data s e = "cde".data
      ∧ s < e ∧ e ≤ "abcde".data.length ∧ e - s ≤ 3
      ∧ "cde".data ≠ [] ∧ "cde".data.length ≤ 3) :=
  ⟨⟨by decide, by decide⟩,
    claim_C10 (CharacterChunker.mk 3 1) "abcde".data [] (by decide) (by decide)
      ⟨"cde".data, [("end_char", Value.vNat 5), ("start_char", Value.vNat 2),
        ("chunk_index", Value.vNat 1)], .vStr "doc_chunk_1"⟩ (by decide)⟩

theorem CharacterChunker.chunk_ne_nil (self : CharacterChunker)
    (text : List Char) (metadata : Dict) (h : text ≠ []) :
    self.chunk text metadata ≠ [] := by
  cases text with
  | nil => exact absurd rfl h
  | cons c rest =>
    rw [CharacterChunker.chunk, if_neg (by simp)]
    rw [show (c :: rest).length = rest.length + 1 from rfl]
    rw [CharacterChunker.chunkAux, if_pos (by simp)]
    simp

/-- C3: a token chunker without a tokenizer — whether `None` was configured
explicitly or loading the named backend failed at construction with either
exception kind — chunks exactly as a character chunker with the same size
and overlap would, without raising; on "Test text" it yields at least one
chunk. -/
theorem claim_C3 :
    (∀ (size overlap : Nat) (text : List Char) (metadata : Dict),
      (TokenChunker.mk size overlap none).chunk text metadata
        = (CharacterChunker.mk size overlap).chunk text metadata)
    ∧ (∀ (size overlap : Nat) (name : String) (env : TiktokenEnv),
        env.available = false →
          (TokenChunker.init size overlap none (some name) env).tokenizer = none)
    ∧ (∀ (size overlap : Nat) (name e : String) (env : TiktokenEnv),
        env.getEncoding name = .error e →
          (TokenChunker.init size overlap none (some name) env).tokenizer = none)
    ∧ (∀ (size overlap : Nat) (env : TiktokenEnv),
        (TokenChunker.init size overlap none none env).tokenizer = none)
    ∧ (∀ (size overlap : Nat) (metadata : Dict),
        (TokenChunker.mk size overlap none).chunk "Test text".data metadata ≠ []) := by
  refine ⟨?_, ?_, ?_, ?_, ?_⟩
  · intro size overlap text metadata
    rfl
  · intro size overlap name env h
    simp [TokenChunker.init, get_tokenizer, h]
  · intro size overlap name e env h
    by_cases hav : env.available
    · simp [TokenChunker.init, get_tokenizer, h, hav]
    · simp [TokenChunker.init, get_tokenizer, h, hav]
  · intro size overlap env
    rfl
  · intro size overlap metadata
    show (CharacterChunker.mk size overlap).chunk "Test text".data metadata ≠ []
    exact CharacterChunker.chunk_ne_nil _ _ _ (by decide)

/-- Witness for C3: a backend that fails to import, the invalid tokenizer
name from the repository's own fallback test, and the text "Test text". -/
theorem claim_C3_witness :
    (TiktokenEnv.mk false (fun _ => .error "boom")).available = false
    ∧ (TokenChunker.init 5 1 none (some "invalid_tokenizer_name_xyz")
        (TiktokenEnv.mk false (fun _ => .error "boom"))).tokenizer = none
    ∧ (TokenChunker.mk 5 1 none).chunk "Test text".data [] ≠ [] :=
  ⟨rfl,
    claim_C3.2.1 5 1 "invalid_tokenizer_name_xyz"
      (TiktokenEnv.mk false (fun _ => .error "boom")) rfl,
    claim_C3.2.2.2.2 5 1 []⟩

theorem append_mid_split (a l x m e : String) :
    (a ++ ((l ++ x) ++ m)) ++ e = ((a ++ l) ++ x) ++ (m ++ e) := by
  simp [String.append_assoc]

/-- C4: a strategy string whose lower-casing matches a built-in name
resolves to that built-in constructed with the given parameters; any other
string whose external resolution fails makes `get_chunker` raise a single
`ValueError` whose message contains the strategy, each of the four built-in
names, and the underlying cause — never an unrelated exception. -/
theorem claim_C4 (α : Type) (env : TiktokenEnv) (ext : String → Except String α)
    (strategy : String) (size overlap : Nat) (tokenizer : Option Tokenizer)
    (tokenizer_name : Option String) :
    (pyLower strategy = "character" →
      get_chunker env ext strategy size overlap tokenizer tokenizer_name
        = .ok (.inl (.character (CharacterChunker.mk size overlap))))
    ∧ (pyLower strategy = "token" →
      get_chunker env ext strategy size overlap tokenizer tokenizer_name
        = .ok (.inl (.token
            (TokenChunker.init size overlap tokenizer tokenizer_name env))))
    ∧ (pyLower strategy = "sentence" →
      get_chunker env ext strategy size overlap tokenizer tokenizer_name
        = .ok (.inl (.sentence (SentenceChunker.mk size overlap))))
    ∧ (pyLower strategy = "none" →
      get_chunker env ext strategy size overlap tokenizer tokenizer_name
        = .ok (.inl (.nochunk ⟨⟩)))
    ∧ (pyLower strategy ≠ "character" → pyLower strategy ≠ "token" →
        pyLower strategy ≠ "sentence" → pyLower strategy ≠ "none" →
        ∀ e : String, ext strategy = .error e →
          get_chunker env ext strategy size overlap tokenizer tokenizer_name
            = .error (unknownStrategyMsg strategy e)
          ∧ (∃ p q : String, unknownStrategyMsg strategy e = p ++ strategy ++ q)
          ∧ (∃ p q : String, unknownStrategyMsg strategy e = p ++ "'character'" ++ q)
          ∧ (∃ p q : String, unknownStrategyMsg strategy e = p ++ "'token'" ++ q)
          ∧ (∃ p q : String, unknownStrategyMsg strategy e = p ++ "'sentence'" ++ q)
          ∧ (∃ p q : String, unknownStrategyMsg strategy e = p ++ "'none'" ++ q)
          ∧ (∃ p : String, unknownStrategyMsg strategy e = p ++ e)) := by
  refine ⟨?_, ?_, ?_, ?_, ?_⟩
  · intro h
    simp [get_chunker, h]
  · intro h
    simp [get_chunker, h]
  · intro h
    simp [get_chunker, h]
  · intro h
    simp [get_chunker, h]
  · intro h1 h2 h3 h4 e he
    refine ⟨?_, ?_, ?_, ?_, ?_, ?_, ?_⟩
    · simp [get_chunker, h1, h2, h3, h4, he]
    · exact ⟨"Unknown chunking strategy '",
        "'. Supported: 'character', 'token', 'sentence', 'none', or a module path like 'mypackage.CustomChunker'. Error: " ++ e,
        String.append_assoc _ _ _⟩
    · refine ⟨"Unknown chunking strategy '" ++ strategy ++ "'. Supported: ",
        ", 'token', 'sentence', 'none', or a module path like 'mypackage.CustomChunker'. Error: " ++ e, ?_⟩
      show ("Unknown chunking strategy '" ++ strategy
          ++ (("'. Supported: " ++ "'character'")
            ++ ", 'token', 'sentence', 'none', or a module path like 'mypackage.CustomChunker'. Error: ")) ++ e = _
      exact append_mid_split _ _ _ _ _
    · refine ⟨"Unknown chunking strategy '" ++ strategy ++ "'. Supported: 'character', ",
        ", 'sentence', 'none', or a module path like 'mypackage.CustomChunker'. Error: " ++ e, ?_⟩
      show ("Unknown chunking strategy '" ++ strategy
          ++ (("'. Supported: 'character', " ++ "'token'")
            ++ ", 'sentence', 'none', or a module path like 'mypackage.CustomChunker'. Error: ")) ++ e = _
      exact append_mid_split _ _ _ _ _
    · refine ⟨"Unknown chunking strategy '" ++ strategy ++ "'. Supported: 'character', 'token', ",
        ", 'none', or a module path like 'mypackage.CustomChunker'. Error: " ++ e, ?_⟩
      show ("Unknown chunking strategy '" ++ strategy
          ++ (("'. Supported: 'character', 'token', " ++ "'sentence'")
            ++ ", 'none', or a module path like 'mypackage.CustomChunker'. Error: ")) ++ e = _
      exact append_mid_split _ _ _ _ _
    · refine ⟨"Unknown chunking strategy '" ++ strategy ++ "'. Supported: 'character', 'token', 'sentence', ",
        ", or a module path like 'mypackage.CustomChunker'. Error: " ++ e, ?_⟩
      show ("Unknown chunking strategy '" ++ strategy
          ++ (("'. Supported: 'character', 'token', 'sentence', " ++ "'none'")
            ++ ", or a module path like 'mypackage.CustomChunker'. Error: ")) ++ e = _
      exact append_mid_split _ _ _ _ _
    · exact ⟨"Unknown chunking strategy '" ++ strategy
        ++ "'. Supported: 'character', 'token', 'sentence', 'none', or a module path like 'mypackage.CustomChunker'. Error: ",
        rfl⟩

/-- Witness for C4: the built-in name with mixed case "ChArAcTeR", and the
failing strategy "bogus_xyz" with a concrete import-error cause. -/
theorem claim_C4_witness :
    (pyLower "ChArAcTeR" = "character" ∧ pyLower "bogus_xyz" ≠ "character"
      ∧ pyLower "bogus_xyz" ≠ "token" ∧ pyLower "bogus_xyz" ≠ "sentence"
      ∧ pyLower "bogus_xyz" ≠ "none")
    ∧ get_chunker (TiktokenEnv.mk false (fun _ => .error "boom"))
        (fun _ : String => (.error "No module named 'bogus_xyz'" : Except String Unit))
        "ChArAcTeR" 100 10 none (some "cl100k_base")
        = .ok (.inl (.character (CharacterChunker.mk 100 10)))
    ∧ get_chunker (TiktokenEnv.mk false (fun _ => .error "boom"))
        (fun _ : String => (.error "No module named 'bogus_xyz'" : Except String Unit))
        "bogus_xyz" 100 10 none (some "cl100k_base")
        = .error (unknownStrategyMsg "bogus_xyz" "No module named 'bogus_xyz'")
    ∧ (∃ p q : String, unknownStrategyMsg "bogus_xyz" "No module named 'bogus_xyz'"
        = p ++ "'sentence'" ++ q) :=
  ⟨⟨by decide, by decide, by decide, by decide, by decide⟩,
    (claim_C4 Unit (TiktokenEnv.mk false (fun _ => .error "boom"))
      (fun _ => .error "No module named 'bogus_xyz'") "ChArAcTeR" 100 10 none
      (some "cl100k_base")).1 (by decide),
    ((claim_C4 Unit (TiktokenEnv.mk false (fun _ => .error "boom"))
      (fun _ => .error "No module named 'bogus_xyz'") "bogus_xyz" 100 10 none
      (some "cl100k_base")).2.2.2.2 (by decide) (by decide) (by decide) (by decide)
      "No module named 'bogus_xyz'" rfl).1,
    ((claim_C4 Unit (TiktokenEnv.mk false (fun _ => .error "boom"))
      (fun _ => .error "No module named 'bogus_xyz'") "bogus_xyz" 100 10 none
      (some "cl100k_base")).2.2.2.2 (by decide) (by decide) (by decide) (by decide)
      "No module named 'bogus_xyz'" rfl).2.2.2.2.1⟩

/-- C9: `NoChunker` always yields exactly one chunk: the whole input text,
a copy of the base metadata, and a `chunk_id` equal to the metadata's
`source_id` value when present and the fixed placeholder "doc" otherwise —
never an indexed id. -/
theorem claim_C9 (x : NoChunker) (text : List Char) (metadata : Dict) :
    (x.chunk text metadata).length = 1
    ∧ ∀ c ∈ x.chunk text metadata,
        c.text = text ∧ c.metadata = metadata
        ∧ (∀ v : Value, dictGet metadata "source_id" = some v → c.chunk_id = v)
        ∧ (dictGet metadata "source_id" = none → c.chunk_id = .vStr "doc") := by
  refine ⟨rfl, ?_⟩
  intro c hc
  simp only [NoChunker.chunk, List.mem_singleton] at hc
  subst hc
  refine ⟨rfl, rfl, ?_, ?_⟩
  · intro v hv
    simp [dictGetD, hv]
  · intro hv
    simp [dictGetD, hv]

/-- Witness for C9: text "abc" with a `source_id` of "s" in the metadata. -/
theorem claim_C9_witness :
    ((NoChunker.mk).chunk "abc".data [("source_id", Value.vStr "s")]).length = 1
    ∧ (⟨"abc".data, [("source_id", Value.vStr "s")], Value.vStr "s"⟩ : Chunk).chunk_id
        = Value.vStr "s" :=
  ⟨(claim_C9 ⟨⟩ "abc".data [("source_id", Value.vStr "s")]).1,
    (((claim_C9 ⟨⟩ "abc".data [("source_id", Value.vStr "s")]).2
      ⟨"abc".data, [("source_id", Value.vStr "s")], Value.vStr "s"⟩
      (by decide)).2.2.1 (Value.vStr "s") (by decide))⟩

theorem chunkIndexVals_nil : chunkIndexVals [] = [] := rfl

theorem chunkIndexVals_cons_vNat (c : Chunk) (l : List Chunk) (n : Nat)
    (h : dictGet c.metadata "chunk_index" = some (.vNat n)) :
    chunkIndexVals (c :: l) = n :: chunkIndexVals l := by
  simp [chunkIndexVals, List.filterMap_cons, h]

theorem chunkIndexVals_cons_none (c : Chunk) (l : List Chunk)
    (h : dictGet c.metadata "chunk_index" = none) :
    chunkIndexVals (c :: l) = chunkIndexVals l := by
  simp [chunkIndexVals, List.filterMap_cons, h]

theorem TokenChunker.tokMkChunkAt_idx (self : TokenChunker) (t : Tokenizer)
    (tokens : List Nat) (metadata : Dict) (start chunk_idx : Nat) :
    dictGet (self.mkChunkAt t tokens metadata start chunk_idx).metadata "chunk_index"
      = some (.vNat chunk_idx) := rfl

theorem SentenceChunker.mkChunk_idx (self : SentenceChunker) (metadata : Dict)
    (current_chunk : List (List Char)) (chunk_idx : Nat) :
    dictGet (self.mkChunk metadata current_chunk chunk_idx).metadata "chunk_index"
      = some (.vNat chunk_idx) := rfl

theorem CharacterChunker.charAux_indexVals (self : CharacterChunker)
    (text : List Char) (metadata : Dict) : ∀ fuel start chunk_idx,
    chunkIndexVals (self.chunkAux text metadata fuel start chunk_idx)
      = List.range' chunk_idx (self.chunkAux text metadata fuel start chunk_idx).length := by
  intro fuel
  induction fuel with
  | zero => intro start chunk_idx; simp [CharacterChunker.chunkAux, chunkIndexVals]
  | succ fuel ih =>
    intro start chunk_idx
    rw [CharacterChunker.chunkAux]
    by_cases hlt : start < text.length
    · rw [if_pos hlt]
      by_cases hb : start + self.size - self.overlap < text.length
      · rw [if_pos hb,
          chunkIndexVals_cons_vNat _ _ _ (self.charMkChunkAt_idx text metadata start chunk_idx),
          ih (start + self.size - self.overlap) (chunk_idx + 1)]
        simp only [List.length_cons]
        rw [List.range'_succ]
      · rw [if_neg hb,
          chunkIndexVals_cons_vNat _ _ _ (self.charMkChunkAt_idx text metadata start chunk_idx)]
        simp [chunkIndexVals, List.range'_succ]
    · rw [if_neg hlt]
      simp [chunkIndexVals]

theorem CharacterChunker.chunk_indexVals (self : CharacterChunker)
    (text : List Char) (metadata : Dict) :
    chunkIndexVals (self.chunk text metadata)
      = List.range' 0 (self.chunk text metadata).length := by
  rw [CharacterChunker.chunk]
  by_cases hz : text.length = 0
  · rw [if_pos hz]; rfl
  · rw [if_neg hz]
    exact self.charAux_indexVals text metadata text.length 0 0

theorem TokenChunker.tokAux_indexVals (self : TokenChunker) (t : Tokenizer)
    (tokens : List Nat) (metadata : Dict) : ∀ fuel start chunk_idx,
    chunkIndexVals (self.chunkAux t tokens metadata fuel start chunk_idx)
      = List.range' chunk_idx (self.chunkAux t tokens metadata fuel start chunk_idx).length := by
  intro fuel
  induction fuel with
  | zero => intro start chunk_idx; simp [TokenChunker.chunkAux, chunkIndexVals]
  | succ fuel ih =>
    intro start chunk_idx
    rw [TokenChunker.chunkAux]
    by_cases hlt : start < tokens.length
    · rw [if_pos hlt]
      by_cases hb : start + self.size - self.overlap < tokens.length
      · rw [if_pos hb,
          chunkIndexVals_cons_vNat _ _ _ (self.tokMkChunkAt_idx t tokens metadata start chunk_idx),
          ih (start + self.size - self.overlap) (chunk_idx + 1)]
        simp only [List.length_cons]
        rw [List.range'_succ]
      · rw [if_neg hb,
          chunkIndexVals_cons_vNat _ _ _ (self.tokMkChunkAt_idx t tokens metadata start chunk_idx)]
        simp [chunkIndexVals, List.range'_succ]
    · rw [if_neg hlt]
      simp [chunkIndexVals]

theorem SentenceChunker.sentAux_indexVals (self : SentenceChunker)
    (metadata : Dict) : ∀ (sentences current_chunk : List (List Char))
    (current_size chunk_idx : Nat) (overlap_sentences : List (List Char)),
    chunkIndexVals (self.chunkAux metadata sentences current_chunk
        current_size chunk_idx overlap_sentences)
      = List.range' chunk_idx (self.chunkAux metadata sentences current_chunk
          current_size chunk_idx overlap_sentences).length := by
  intro sentences
  induction sentences with
  | nil =>
    intro current_chunk current_size chunk_idx overlap_sentences
    rw [SentenceChunker.chunkAux]
    by_cases hce : current_chunk.isEmpty
    · rw [if_pos hce]; rfl
    · rw [if_neg hce,
        chunkIndexVals_cons_vNat _ _ _ (self.mkChunk_idx metadata current_chunk chunk_idx)]
      simp [chunkIndexVals, List.range'_succ]
  | cons s rest ih =>
    intro current_chunk current_size chunk_idx overlap_sentences
    rw [SentenceChunker.chunkAux]
    by_cases hfit : current_size + s.length ≤ self.size
    · rw [if_pos hfit]
      exact ih _ _ _ _
    · rw [if_neg hfit]
      by_cases hce : current_chunk.isEmpty
      · rw [if_pos hce]
        exact ih _ _ _ _
      · rw [if_neg hce,
          chunkIndexVals_cons_vNat _ _ _ (self.mkChunk_idx metadata current_chunk chunk_idx),
          ih _ _ _ _]
        simp only [List.length_cons]
        rw [List.range'_succ]

theorem indexVals_range_of_range' (l : List Chunk)
    (h : chunkIndexVals l = List.range' 0 l.length) :
    chunkIndexVals l = List.range (chunkIndexVals l).length := by
  rw [h]
  simp [List.range_eq_range']

/-- C6: for every built-in strategy and every input whose base metadata does
not already carry a `chunk_index`, the `chunk_index` values attached to the
chunks of one `chunk()` call form the contiguous zero-based strictly
increasing sequence 0, 1, 2, ... in emission order with no gaps (the
pass-through chunker attaches none). -/
theorem claim_C6 (ci : ChunkerI) (text : List Char) (metadata : Dict)
    (hbase : dictGet metadata "chunk_index" = none) :
    chunkIndexVals (ci.chunk text metadata)
      = List.range (chunkIndexVals (ci.chunk text metadata)).length := by
  cases ci with
  | character c =>
    exact indexVals_range_of_range' _ (c.chunk_indexVals text metadata)
  | token c =>
    obtain ⟨size, overlap, tok⟩ := c
    cases tok with
    | none =>
      exact indexVals_range_of_range' _
        ((CharacterChunker.mk size overlap).chunk_indexVals text metadata)
    | some t =>
      rw [show (ChunkerI.token (TokenChunker.mk size overlap (some t))).chunk text metadata
          = if text.length = 0 then
              (CharacterChunker.mk size overlap).chunk text metadata
            else if (t.encode text).length = 0 then []
            else (TokenChunker.mk size overlap (some t)).chunkAux t (t.encode text)
              metadata (t.encode text).length 0 0
          from rfl]
      by_cases hz : text.length = 0
      · rw [if_pos hz]
        exact indexVals_range_of_range' _
          ((CharacterChunker.mk size overlap).chunk_indexVals text metadata)
      · rw [if_neg hz]
        by_cases htok : (t.encode text).length = 0
        · rw [if_pos htok]
          rfl
        · rw [if_neg htok]
          exact indexVals_range_of_range' _
            ((TokenChunker.mk size overlap (some t)).tokAux_indexVals t
              (t.encode text) metadata (t.encode text).length 0 0)
  | sentence c =>
    rw [show (ChunkerI.sentence c).chunk text metadata
        = if text.length = 0 then []
          else if (sentSplit text).isEmpty then
            (CharacterChunker.mk c.size c.overlap).chunk text metadata
          else c.chunkAux metadata (sentSplit text) [] 0 0 []
        from rfl]
    by_cases hz : text.length = 0
    · rw [if_pos hz]
      rfl
    · rw [if_neg hz]
      by_cases hse : (sentSplit text).isEmpty
      · rw [if_pos hse]
        exact indexVals_range_of_range' _
          ((CharacterChunker.mk c.size c.overlap).chunk_indexVals text metadata)
      · rw [if_neg hse]
        exact indexVals_range_of_range' _
          (c.sentAux_indexVals metadata (sentSplit text) [] 0 0 [])
  | nochunk c =>
    rw [show (ChunkerI.nochunk c).chunk text metadata
        = [⟨text, metadata, dictGetD metadata "source_id" (.vStr "doc")⟩] from rfl]
    rw [chunkIndexVals_cons_none _ _ hbase]
    rfl

/-- Witness for C6: the character strategy with size 3, overlap 1 on
"abcde", whose base metadata has no `chunk_index`. -/
theorem claim_C6_witness :
    dictGet [("source_id", Value.vStr "t")] "chunk_index" = none
    ∧ chunkIndexVals
        ((ChunkerI.character (CharacterChunker.mk 3 1)).chunk "abcde".data
          [("source_id", Value.vStr "t")])
      = List.range (chunkIndexVals
          ((ChunkerI.character (CharacterChunker.mk 3 1)).chunk "abcde".data
            [("source_id", Value.vStr "t")])).length :=
  ⟨by decide,
    claim_C6 (ChunkerI.character (CharacterChunker.mk 3 1)) "abcde".data
      [("source_id", Value.vStr "t")] (by decide)⟩

theorem joinSpace_mem_parts (s : List Char) (l : List (List Char)) (h : s ∈ l) :
    ∃ p q : List Char, joinSpace l = p ++ s ++ q := by
  induction l with
  | nil => cases h
  | cons a rest ih =>
    cases h with
    | head =>
      cases rest with
      | nil => exact ⟨[], [], by simp [joinSpace]⟩
      | cons b r2 => exact ⟨[], ' ' :: joinSpace (b :: r2), by simp [joinSpace]⟩
    | tail _ hmem =>
      obtain ⟨p, q, hpq⟩ := ih hmem
      cases rest with
      | nil => cases hmem
      | cons b r2 =>
        refine ⟨a ++ ' ' :: p, q, ?_⟩
        show joinSpace (a :: b :: r2) = _
        rw [joinSpace, hpq]
        all_goals simp

theorem sentSplitGo_ne_nil : ∀ (l : List Char) (prev : Option Char)
    (inDelim : Bool) (acc : List Char), sentSplitGo prev inDelim acc l ≠ [] := by
  intro l
  induction l with
  | nil =>
    intro prev inDelim acc
    rw [sentSplitGo]
    simp
  | cons c rest ih =>
    intro prev inDelim acc
    rw [sentSplitGo]
    by_cases hd : inDelim = true
    · rw [if_pos hd]
      by_cases hs : isPySpace c
      · rw [if_pos hs]; exact ih _ _ _
      · rw [if_neg hs]; exact ih _ _ _
    · rw [if_neg hd]
      by_cases hs : (isPySpace c && prevIsSentEnd prev) = true
      · rw [if_pos hs]; simp
      · rw [if_neg hs]; exact ih _ _ _

theorem overlapPickGo_sub (o : Nat) (x : List Char) :
    ∀ (l : List (List Char)) (acc : Nat), x ∈ overlapPickGo o l acc → x ∈ l := by
  intro l
  induction l with
  | nil => intro acc h; cases h
  | cons s rest ih =>
    intro acc h
    rw [overlapPickGo] at h
    by_cases hfit : acc + s.length ≤ o
    · rw [if_pos hfit] at h
      cases h with
      | head => exact List.mem_cons_self _ _
      | tail _ h2 => exact List.mem_cons_of_mem _ (ih _ h2)
    · rw [if_neg hfit] at h
      cases h

theorem overlapPick_sub (o : Nat) (x : List Char) (l : List (List Char))
    (h : x ∈ overlapPick o l) : x ∈ l := by
  rw [overlapPick, List.mem_reverse] at h
  exact List.mem_reverse.mp (overlapPickGo_sub o x l.reverse 0 h)

theorem SentenceChunker.chunkAux_covers (self : SentenceChunker) (metadata : Dict) :
    ∀ (sentences current_chunk : List (List Char)) (current_size chunk_idx : Nat)
      (overlap_sentences : List (List Char)) (s : List Char),
      (s ∈ current_chunk ∨ s ∈ sentences) →
      ∃ c ∈ self.chunkAux metadata sentences current_chunk current_size chunk_idx
          overlap_sentences, ∃ p q : List Char, c.text = p ++ s ++ q := by
  intro sentences
  induction sentences with
  | nil =>
    intro current_chunk current_size chunk_idx overlap_sentences s hs
    rcases hs with hs | hs
    · have hne : ¬ current_chunk.isEmpty = true := by
        cases current_chunk with
        | nil => cases hs
        | cons a l => simp
      rw [SentenceChunker.chunkAux, if_neg hne]
      obtain ⟨p, q, hpq⟩ := joinSpace_mem_parts s current_chunk hs
      exact ⟨self.mkChunk metadata current_chunk chunk_idx, by simp, p, q, hpq⟩
    · cases hs
  | cons snt rest ih =>
    intro current_chunk current_size chunk_idx overlap_sentences s hs
    rw [SentenceChunker.chunkAux]
    by_cases hfit : current_size + snt.length ≤ self.size
    · rw [if_pos hfit]
      apply ih
      rcases hs with hs | hs
      · exact Or.inl (by simp [hs])
      · cases hs with
        | head => exact Or.inl (by simp)
        | tail _ h2 => exact Or.inr h2
    · rw [if_neg hfit]
      by_cases hce : current_chunk.isEmpty = true
      · rw [if_pos hce]
        apply ih
        rcases hs with hs | hs
        · rw [List.isEmpty_iff] at hce
          rw [hce] at hs
          cases hs
        · cases hs with
          | head => exact Or.inl (by simp)
          | tail _ h2 => exact Or.inr h2
      · rw [if_neg hce]
        rcases hs with hs | hs
        · obtain ⟨p, q, hpq⟩ := joinSpace_mem_parts s current_chunk hs
          exact ⟨self.mkChunk metadata current_chunk chunk_idx,
            List.mem_cons_self _ _, p, q, hpq⟩
        · rcases hs with _ | ⟨_, h2⟩
          · obtain ⟨c, hc, p, q, hpq⟩ := ih
              (overlapPick self.overlap current_chunk ++ [snt])
              (((overlapPick self.overlap current_chunk ++ [snt]).map List.length).sum)
              (chunk_idx + 1) (overlapPick self.overlap current_chunk) snt
              (Or.inl (by simp))
            exact ⟨c, List.mem_cons_of_mem _ hc, p, q, hpq⟩
          · obtain ⟨c, hc, p, q, hpq⟩ := ih
              (overlapPick self.overlap current_chunk ++ [snt])
              (((overlapPick self.overlap current_chunk ++ [snt]).map List.length).sum)
              (chunk_idx + 1) (overlapPick self.overlap current_chunk) s
              (Or.inr h2)
            exact ⟨c, List.mem_cons_of_mem _ hc, p, q, hpq⟩

theorem SentenceChunker.chunkAux_texts (self : SentenceChunker) (metadata : Dict)
    (P : List Char → Prop) :
    ∀ (sentences current_chunk : List (List Char)) (current_size chunk_idx : Nat)
      (overlap_sentences : List (List Char)),
      (∀ x ∈ current_chunk, P x) → (∀ x ∈ overlap_sentences, P x) →
      (∀ x ∈ sentences, P x) →
      ∀ c ∈ self.chunkAux metadata sentences current_chunk current_size chunk_idx
          overlap_sentences,
        ∃ l : List (List Char), l ≠ [] ∧ (∀ x ∈ l, P x) ∧ c.text = joinSpace l := by
  intro sentences
  induction sentences with
  | nil =>
    intro current_chunk current_size chunk_idx overlap_sentences hcur hovl hsent c hc
    rw [SentenceChunker.chunkAux] at hc
    by_cases hce : current_chunk.isEmpty = true
    · rw [if_pos hce] at hc
      cases hc
    · rw [if_neg hce] at hc
      rcases hc with _ | ⟨_, h2⟩
      · exact ⟨current_chunk, by simpa [List.isEmpty_iff] using hce, hcur, rfl⟩
      · cases h2
  | cons snt rest ih =>
    intro current_chunk current_size chunk_idx overlap_sentences hcur hovl hsent c hc
    rw [SentenceChunker.chunkAux] at hc
    by_cases hfit : current_size + snt.length ≤ self.size
    · rw [if_pos hfit] at hc
      refine ih (current_chunk ++ [snt]) _ _ _ ?_ hovl ?_ c hc
      · intro x hx
        rcases List.mem_append.mp hx with hx | hx
        · exact hcur x hx
        · rw [List.mem_singleton.mp hx]
          exact hsent snt (List.mem_cons_self _ _)
      · intro x hx
        exact hsent x (List.mem_cons_of_mem _ hx)
    · rw [if_neg hfit] at hc
      by_cases hce : current_chunk.isEmpty = true
      · rw [if_pos hce] at hc
        refine ih (overlap_sentences ++ [snt]) _ _ _ ?_ hovl ?_ c hc
        · intro x hx
          rcases List.mem_append.mp hx with hx | hx
          · exact hovl x hx
          · rw [List.mem_singleton.mp hx]
            exact hsent snt (List.mem_cons_self _ _)
        · intro x hx
          exact hsent x (List.mem_cons_of_mem _ hx)
      · rw [if_neg hce] at hc
        rcases hc with _ | ⟨_, h2⟩
        · exact ⟨current_chunk, by simpa [List.isEmpty_iff] using hce, hcur, rfl⟩
        · refine ih (overlapPick self.overlap current_chunk ++ [snt]) _ _
            (overlapPick self.overlap current_chunk) ?_ ?_ ?_ c h2
          · intro x hx
            rcases List.mem_append.mp hx with hx | hx
            · exact hcur x (overlapPick_sub _ _ _ hx)
            · rw [List.mem_singleton.mp hx]
              exact hsent snt (List.mem_cons_self _ _)
          · intro x hx
            exact hcur x (overlapPick_sub _ _ _ hx)
          · intro x hx
            exact hsent x (List.mem_cons_of_mem _ hx)

/-- C8: for non-empty text, every sentence produced by the sentence split
appears whole and contiguous in the text of some emitted chunk (even a
sentence longer than `size` — there is no size hypothesis), and every
emitted chunk's text is a single-space join of whole sentences taken from
the split. -/
theorem claim_C8 (self : SentenceChunker) (text : List Char) (metadata : Dict)
    (hne : text ≠ []) :
    (∀ s ∈ sentSplit text, ∃ c ∈ self.chunk text metadata,
      ∃ p q : List Char, c.text = p ++ s ++ q)
    ∧ (∀ c ∈ self.chunk text metadata, ∃ l : List (List Char), l ≠ []
        ∧ (∀ x ∈ l, x ∈ sentSplit text) ∧ c.text = joinSpace l) := by
  have hlen : text.length ≠ 0 := fun h0 => hne (List.length_eq_zero.mp h0)
  have hsne : ¬ (sentSplit text).isEmpty = true := by
    rw [List.isEmpty_iff]
    exact sentSplitGo_ne_nil text none false []
  have hchunk : self.chunk text metadata
      = self.chunkAux metadata (sentSplit text) [] 0 0 [] := by
    rw [show self.chunk text metadata
        = if text.length = 0 then []
          else if (sentSplit text).isEmpty then
            (CharacterChunker.mk self.size self.overlap).chunk text metadata
          else self.chunkAux metadata (sentSplit text) [] 0 0 []
        from rfl, if_neg hlen, if_neg hsne]
  constructor
  · intro s hs
    rw [hchunk]
    exact self.chunkAux_covers metadata (sentSplit text) [] 0 0 [] s (Or.inr hs)
  · intro c hc
    rw [hchunk] at hc
    exact self.chunkAux_texts metadata (fun x => x ∈ sentSplit text)
      (sentSplit text) [] 0 0 [] (by simp) (by simp) (fun x hx => hx) c hc

/-- Witness for C8: "One. Two." with size 10, overlap 3; the sentence
"One." appears whole in some chunk. -/
theorem claim_C8_witness :
    ("One. Two.".data ≠ [] ∧ "One.".data ∈ sentSplit "One. Two.".data)
    ∧ (∃ c ∈ (SentenceChunker.mk 10 3).chunk "One. Two.".data [],
        ∃ p q : List Char, c.text = p ++ "One.".data ++ q) :=
  ⟨⟨by decide, by decide⟩,
    (claim_C8 (SentenceChunker.mk 10 3) "One. Two.".data [] (by decide)).1
      "One.".data (by decide)⟩

theorem heapGet_heapSet_ne (store : List Dict) (r r' : Nat) (d : Dict)
    (h : r ≠ r') : heapGet (heapSet store r d) r' = heapGet store r' := by
  rw [heapGet, heapSet, heapGet]
  simp only [List.getD, List.get?_eq_getElem?]
  rw [List.getElem?_set_ne h]

theorem CharacterChunker.charHAux_refs (self : CharacterChunker)
    (text : List Char) (baseRef : Nat) : ∀ (fuel start chunk_idx : Nat)
    (store : List Dict),
    (self.chunkHAux text baseRef fuel start chunk_idx store).1.map HChunk.metaRef
      = List.range' store.length
          (self.chunkHAux text baseRef fuel start chunk_idx store).1.length := by
  intro fuel
  induction fuel with
  | zero => intro start chunk_idx store; simp [CharacterChunker.chunkHAux]
  | succ fuel ih =>
    intro start chunk_idx store
    rw [CharacterChunker.chunkHAux]
    by_cases hlt : start < text.length
    · rw [if_pos hlt]
      by_cases hb : start + self.size - self.overlap < text.length
      · rw [if_pos hb]
        simp only [List.map_cons, List.length_cons]
        rw [ih (start + self.size - self.overlap) (chunk_idx + 1)
          (store ++ [self.hMeta text store baseRef start chunk_idx])]
        rw [List.range'_succ]
        simp [CharacterChunker.mkHChunkAt]
      · rw [if_neg hb]
        simp [CharacterChunker.mkHChunkAt, List.range'_succ]
    · rw [if_neg hlt]
      simp

theorem CharacterChunker.charH_refs (self : CharacterChunker)
    (text : List Char) (baseRef : Nat) (store : List Dict) :
    (self.chunkH text baseRef store).1.map HChunk.metaRef
      = List.range' store.length (self.chunkH text baseRef store).1.length := by
  rw [CharacterChunker.chunkH]
  by_cases hz : text.length = 0
  · rw [if_pos hz]; simp
  · rw [if_neg hz]
    exact self.charHAux_refs text baseRef text.length 0 0 store

theorem TokenChunker.tokHAux_refs (self : TokenChunker) (t : Tokenizer)
    (tokens : List Nat) (baseRef : Nat) : ∀ (fuel start chunk_idx : Nat)
    (store : List Dict),
    (self.chunkHAux t tokens baseRef fuel start chunk_idx store).1.map HChunk.metaRef
      = List.range' store.length
          (self.chunkHAux t tokens baseRef fuel start chunk_idx store).1.length := by
  intro fuel
  induction fuel with
  | zero => intro start chunk_idx store; simp [TokenChunker.chunkHAux]
  | succ fuel ih =>
    intro start chunk_idx store
    rw [TokenChunker.chunkHAux]
    by_cases hlt : start < tokens.length
    · rw [if_pos hlt]
      by_cases hb : start + self.size - self.overlap < tokens.length
      · rw [if_pos hb]
        simp only [List.map_cons, List.length_cons]
        rw [ih (start + self.size - self.overlap) (chunk_idx + 1)
          (store ++ [self.hMeta tokens store baseRef start chunk_idx])]
        rw [List.range'_succ]
        simp [TokenChunker.mkHChunkAt]
      · rw [if_neg hb]
        simp [TokenChunker.mkHChunkAt, List.range'_succ]
    · rw [if_neg hlt]
      simp

theorem SentenceChunker.sentHAux_refs (self : SentenceChunker) (baseRef : Nat) :
    ∀ (sentences current_chunk : List (List Char)) (current_size chunk_idx : Nat)
      (overlap_sentences : List (List Char)) (store : List Dict),
    (self.chunkHAux baseRef sentences current_chunk current_size chunk_idx
        overlap_sentences store).1.map HChunk.metaRef
      = List.range' store.length
          (self.chunkHAux baseRef sentences current_chunk current_size chunk_idx
            overlap_sentences store).1.length := by
  intro sentences
  induction sentences with
  | nil =>
    intro current_chunk current_size chunk_idx overlap_sentences store
    rw [SentenceChunker.chunkHAux]
    by_cases hce : current_chunk.isEmpty = true
    · rw [if_pos hce]; simp
    · rw [if_neg hce]
      simp [SentenceChunker.mkHChunk, List.range'_succ]
  | cons s rest ih =>
    intro current_chunk current_size chunk_idx overlap_sentences store
    rw [SentenceChunker.chunkHAux]
    by_cases hfit : current_size + s.length ≤ self.size
    · rw [if_pos hfit]
      exact ih _ _ _ _ _
    · rw [if_neg hfit]
      by_cases hce : current_chunk.isEmpty = true
      · rw [if_pos hce]
        exact ih _ _ _ _ _
      · rw [if_neg hce]
        simp only [List.map_cons, List.length_cons]
        rw [ih (overlapPick self.overlap current_chunk ++ [s])
          (((overlapPick self.overlap current_chunk ++ [s]).map List.length).sum)
          (chunk_idx + 1) (overlapPick self.overlap current_chunk)
          (store ++ [SentenceChunker.hMeta store baseRef chunk_idx])]
        rw [List.range'_succ]
        simp [SentenceChunker.mkHChunk]

theorem ChunkerI.dispatchH_refs (ci : ChunkerI) (text : List Char)
    (baseRef : Nat) (store : List Dict) :
    (ci.chunkH text baseRef store).1.map HChunk.metaRef
      = List.range' store.length (ci.chunkH text baseRef store).1.length := by
  cases ci with
  | character c => exact c.charH_refs text baseRef store
  | token c =>
    obtain ⟨size, overlap, tok⟩ := c
    cases tok with
    | none => exact (CharacterChunker.mk size overlap).charH_refs text baseRef store
    | some t =>
      rw [show (ChunkerI.token (TokenChunker.mk size overlap (some t))).chunkH
            text baseRef store
          = if text.length = 0 then
              (CharacterChunker.mk size overlap).chunkH text baseRef store
            else if (t.encode text).length = 0 then ([], store)
            else (TokenChunker.mk size overlap (some t)).chunkHAux t
              (t.encode text) baseRef (t.encode text).length 0 0 store
          from rfl]
      by_cases hz : text.length = 0
      · rw [if_pos hz]
        exact (CharacterChunker.mk size overlap).charH_refs text baseRef store
      · rw [if_neg hz]
        by_cases htok : (t.encode text).length = 0
        · rw [if_pos htok]; simp
        · rw [if_neg htok]
          exact (TokenChunker.mk size overlap (some t)).tokHAux_refs t
            (t.encode text) baseRef (t.encode text).length 0 0 store
  | sentence c =>
    rw [show (ChunkerI.sentence c).chunkH text baseRef store
        = if text.length = 0 then ([], store)
          else if (sentSplit text).isEmpty then
            (CharacterChunker.mk c.size c.overlap).chunkH text baseRef store
          else c.chunkHAux baseRef (sentSplit text) [] 0 0 [] store
        from rfl]
    by_cases hz : text.length = 0
    · rw [if_pos hz]; simp
    · rw [if_neg hz]
      by_cases hse : (sentSplit text).isEmpty
      · rw [if_pos hse]
        exact (CharacterChunker.mk c.size c.overlap).charH_refs text baseRef store
      · rw [if_neg hse]
        exact c.sentHAux_refs baseRef (sentSplit text) [] 0 0 [] store
  | nochunk c =>
    simp [ChunkerI.chunkH, NoChunker.chunkH, List.range'_succ]

theorem get_metaRef_of_refs (cs : List HChunk) (n : Nat)
    (h : cs.map HChunk.metaRef = List.range' n cs.length)
    (i : Nat) (hi : i < cs.length) : (cs.get ⟨i, hi⟩).metaRef = n + i := by
  have e1 : (cs.map HChunk.metaRef)[i]? = some ((cs.get ⟨i, hi⟩).metaRef) := by
    rw [List.getElem?_map, List.getElem?_eq_getElem hi]
    simp [List.get_eq_getElem]
  rw [h] at e1
  have e2 : (List.range' n cs.length)[i]? = some (n + i) := by
    simp [List.getElem?_range', hi]
  rw [e2] at e1
  exact (Option.some.injEq _ _ ▸ e1).symm

/-- C7: in the heap-instrumented semantics (each `metadata.copy()` allocates
a fresh dict) every built-in strategy gives distinct chunks distinct
metadata references, all distinct from the base metadata's reference, so
mutating one chunk's metadata dict changes neither a sibling chunk's dict
nor the base dict. -/
theorem claim_C7 (ci : ChunkerI) (text : List Char) (store : List Dict)
    (baseRef : Nat) (hbase : baseRef < store.length) :
    ∀ i j (hi : i < (ci.chunkH text baseRef store).1.length)
      (hj : j < (ci.chunkH text baseRef store).1.length), i ≠ j →
      ((ci.chunkH text baseRef store).1.get ⟨i, hi⟩).metaRef
        ≠ ((ci.chunkH text baseRef store).1.get ⟨j, hj⟩).metaRef
      ∧ ((ci.chunkH text baseRef store).1.get ⟨i, hi⟩).metaRef ≠ baseRef
      ∧ (∀ d : Dict,
          heapGet (heapSet (ci.chunkH text baseRef store).2
              ((ci.chunkH text baseRef store).1.get ⟨i, hi⟩).metaRef d)
            (((ci.chunkH text baseRef store).1.get ⟨j, hj⟩).metaRef)
          = heapGet (ci.chunkH text baseRef store).2
              (((ci.chunkH text baseRef store).1.get ⟨j, hj⟩).metaRef))
      ∧ (∀ d : Dict,
          heapGet (heapSet (ci.chunkH text baseRef store).2
              ((ci.chunkH text baseRef store).1.get ⟨i, hi⟩).metaRef d) baseRef
          = heapGet (ci.chunkH text baseRef store).2 baseRef) := by
  intro i j hi hj hij
  have hrefs := ci.dispatchH_refs text baseRef store
  have hgi := get_metaRef_of_refs _ _ hrefs i hi
  have hgj := get_metaRef_of_refs _ _ hrefs j hj
  refine ⟨?_, ?_, ?_, ?_⟩
  · rw [hgi, hgj]; omega
  · rw [hgi]; omega
  · intro d
    apply heapGet_heapSet_ne
    rw [hgi, hgj]; omega
  · intro d
    apply heapGet_heapSet_ne
    rw [hgi]; omega

/-- Witness for C7: character strategy, size 3, overlap 1, text "abcde",
base dict at reference 0, first and second emitted chunks. -/
theorem claim_C7_witness :
    ((0 : Nat) < ([[("source_id", Value.vStr "t")]] : List Dict).length
      ∧ (0 : Nat) ≠ (1 : Nat))
    ∧ ((((ChunkerI.character (CharacterChunker.mk 3 1)).chunkH "abcde".data 0
          [[("source_id", Value.vStr "t")]]).1.get ⟨0, by decide⟩).metaRef
        ≠ (((ChunkerI.character (CharacterChunker.mk 3 1)).chunkH "abcde".data 0
          [[("source_id", Value.vStr "t")]]).1.get ⟨1, by decide⟩).metaRef
      ∧ (((ChunkerI.character (CharacterChunker.mk 3 1)).chunkH "abcde".data 0
          [[("source_id", Value.vStr "t")]]).1.get ⟨0, by decide⟩).metaRef ≠ 0
      ∧ (∀ d : Dict,
          heapGet (heapSet ((ChunkerI.character (CharacterChunker.mk 3 1)).chunkH
                "abcde".data 0 [[("source_id", Value.vStr "t")]]).2
              ((((ChunkerI.character (CharacterChunker.mk 3 1)).chunkH "abcde".data 0
                [[("source_id", Value.vStr "t")]]).1.get ⟨0, by decide⟩).metaRef) d)
            ((((ChunkerI.character (CharacterChunker.mk 3 1)).chunkH "abcde".data 0
              [[("source_id", Value.vStr "t")]]).1.get ⟨1, by decide⟩).metaRef)
          = heapGet ((ChunkerI.character (CharacterChunker.mk 3 1)).chunkH
                "abcde".data 0 [[("source_id", Value.vStr "t")]]).2
              ((((ChunkerI.character (CharacterChunker.mk 3 1)).chunkH "abcde".data 0
                [[("source_id", Value.vStr "t")]]).1.get ⟨1, by decide⟩).metaRef))
      ∧ (∀ d : Dict,
          heapGet (heapSet ((ChunkerI.character (CharacterChunker.mk 3 1)).chunkH
                "abcde".data 0 [[("source_id", Value.vStr "t")]]).2
              ((((ChunkerI.character (CharacterChunker.mk 3 1)).chunkH "abcde".data 0
                [[("source_id", Value.vStr "t")]]).1.get ⟨0, by decide⟩).metaRef) d) 0
          = heapGet ((ChunkerI.character (CharacterChunker.mk 3 1)).chunkH
              "abcde".data 0 [[("source_id", Value.vStr "t")]]).2 0)) :=
  ⟨⟨by decide, by decide⟩,
    claim_C7 (ChunkerI.character (CharacterChunker.mk 3 1)) "abcde".data
      [[("source_id", Value.vStr "t")]] 0 (by decide) 0 1 (by decide) (by decide)
      (by decide)⟩
